import Mathlib

/-!
Verification development for the `myterm` X11 terminal/shell
(`src/x11_window.c`).  The definitions below are a shallow embedding of the
relevant C functions; each definition's doc comment names the C source
location it is translated from.  Strings handled at the byte level by the C
code are embedded as `String` or `List Char`; byte streams are `List Nat`.
-/

namespace Myterm

/-! ### Signal numbers (Linux x86-64, as used by the C source) -/

def SIGINT : Nat := 2
def SIGKILL : Nat := 9
def SIGTERM : Nat := 15
def SIGCONT : Nat := 18
def SIGSTOP : Nat := 19
def SIGTSTP : Nat := 20

/-! ### Shared constants (`x11_window.c` lines 43-66) -/

/-- `MAX_COMMAND_LENGTH` (line 49): commands are stored in 256-wide-char
buffers, so at most 255 characters survive storage. -/
def MAX_COMMAND_LENGTH : Nat := 256

/-- `OUTPUT_BUFFER_SIZE` (line 50). -/
def OUTPUT_BUFFER_SIZE : Nat := 4096

/-- `MAX_HISTORY_SIZE` (line 54). -/
def MAX_HISTORY_SIZE : Nat := 10000

/-- `MAX_BG_JOBS` (line 66). -/
def MAX_BG_JOBS : Nat := 100

/-! ### Job-control state

`BGProcess` (lines 76-82) and the globals `bg_processes`, `job_counter`,
`bg_job_count` (lines 145-147), the per-tab `foreground_pid` (line 128), the
signal flags (lines 155-156), and the scrollback text sink
(`add_text_to_buffer`).  `sent` records every `kill(pid, sig)` call the
modelled code performs, in order. -/

structure BGJob where
  pid : Int
  status : String
  command : String
  jobId : Nat
deriving DecidableEq, Repr

structure ShellState where
  signalReceived : Bool
  whichSignal : Nat
  fgPid : Int
  bgJobs : List BGJob
  jobCounter : Nat
  display : List String
  sent : List (Int × Nat)
  currentCommand : String
deriving DecidableEq, Repr

/-- Storage truncation applied by `mbstowcs(.., MAX_COMMAND_LENGTH - 1)` /
`strncpy(.., MAX_COMMAND_LENGTH - 1)`: at most 255 characters are kept. -/
def truncCmd (c : String) : String :=
  String.mk (c.toList.take (MAX_COMMAND_LENGTH - 1))

/-- `handle_sigint` (lines 4068-4081): sets `signal_received` and
`which_signal`; the only other statement is a `printf` to stdout. -/
def handleSigint (s : ShellState) : ShellState :=
  { s with signalReceived := true, whichSignal := SIGINT }

/-- `handle_sigtstp` (lines 4088-4158).  Sets the two flags, then — still
inside the handler — if `foreground_pid > 0`: sends `SIGSTOP`; on kill
failure returns; otherwise, if the job table is not full, appends a new
`BGProcess` with status `"Stopped"`, the (truncated) current command text and
job id `++job_counter`, and writes a job line into the tab's text buffer;
finally clears `foreground_pid`.  `killOk` is the outcome of the `kill`
system call. -/
def handleSigtstp (s : ShellState) (killOk : Bool) : ShellState :=
  let s0 := { s with signalReceived := true, whichSignal := SIGTSTP }
  if s0.fgPid > 0 then
    let s1 := { s0 with sent := s0.sent ++ [(s0.fgPid, SIGSTOP)] }
    if killOk then
      let s2 :=
        if s1.bgJobs.length < MAX_BG_JOBS then
          let jid := s1.jobCounter + 1
          let stored := truncCmd s1.currentCommand
          { s1 with
            bgJobs := s1.bgJobs ++ [⟨s1.fgPid, "Stopped", stored, jid⟩],
            jobCounter := jid,
            display := s1.display ++
              ["[" ++ toString jid ++ "] Stopped    " ++ stored] }
        else s1
      { s2 with fgPid := -1 }
    else s1
  else s0

/-- The Ctrl+Z X11-keypress branch of `execute_command`'s monitor loop
(lines 3035-3043) together with the post-loop zombie cleanup it then reaches
(lines 3140-3152): `kill(pid, SIGTSTP)`, `break`; afterwards, if the child
has not exited (a child merely stopped by `SIGTSTP` has not), `kill(pid,
SIGKILL)` and reap; then `foreground_pid = -1`.  No job record is created on
this path.  `childExited` tells whether the child was already reaped. -/
def suspendKeyPath (s : ShellState) (childExited : Bool) : ShellState :=
  let pid := s.fgPid
  let s1 := { s with sent := s.sent ++ [(pid, SIGTSTP)] }
  let s2 := if childExited then s1
            else { s1 with sent := s1.sent ++ [(pid, SIGKILL)] }
  { s2 with fgPid := -1 }

/-! ### `fg` builtin -/

/-- Outcome of the blocking `waitpid` in `handle_fg_command`. -/
inductive WaitRes where
  | err : WaitRes
  | exited : Nat → WaitRes
  | signaled : Nat → WaitRes
  | stopped : Nat → WaitRes
deriving DecidableEq, Repr

/-- `handle_fg_command` (lines 2583-2711).  `arg` is the job id parsed by
`sscanf(command, "fg %d", ..)` when present; `contOk` is the outcome of the
`kill(pid, SIGCONT)` call; `wres` the outcome of the blocking `waitpid`. -/
def handleFg (s : ShellState) (arg : Option Nat) (contOk : Bool)
    (wres : WaitRes) : ShellState :=
  if s.bgJobs.length = 0 then
    { s with display := s.display ++ ["fg: no current job"] }
  else
    let target := arg.getD s.jobCounter
    match s.bgJobs.find? (fun j => j.jobId = target) with
    | none =>
        { s with display := s.display ++
            ["fg: job not found: " ++ toString target, "Available jobs"] }
    | some j =>
        let resume := j.status = "Stopped"
        let s1 := if resume then { s with sent := s.sent ++ [(j.pid, SIGCONT)] } else s
        if resume && !contOk then
          { s1 with display := s1.display ++
              ["fg: failed to resume job " ++ toString target] }
        else
          let jobs1 := s1.bgJobs.map (fun k =>
            if k.jobId = target && resume then { k with status := "Running" } else k)
          let s2 := { s1 with
            bgJobs := jobs1,
            fgPid := j.pid,
            display := s1.display ++
              ["Resumed job [" ++ toString target ++ "] in foreground: " ++ j.command] }
          let outcome :=
            match wres with
            | .err => "fg: error waiting for job " ++ toString target
            | .exited n => "Job [" ++ toString target ++ "] exited with status " ++ toString n
            | .signaled n => "Job [" ++ toString target ++ "] terminated by signal " ++ toString n
            | .stopped n => "Job [" ++ toString target ++ "] stopped by signal " ++ toString n
          { s2 with display := s2.display ++ [outcome],
                    bgJobs := s2.bgJobs.eraseP (fun k => k.jobId = target),
                    fgPid := -1 }

/-! ### Command history

`add_to_history` (lines 1191-1247): skip empty commands; convert to wide
chars (truncating at 255); skip if equal to the immediately preceding entry;
append if below `MAX_HISTORY_SIZE`, else shift every entry up by one (FIFO
eviction) and place the new command last. -/

def addToHistory (h : List String) (c : String) : List String :=
  if c = "" then h
  else
    let w := truncCmd c
    if h.getLast? = some w then h
    else if h.length < MAX_HISTORY_SIZE then h ++ [w]
    else h.tail ++ [w]


/-! ### Basic lemmas about `truncCmd` and `addToHistory` -/

lemma truncCmd_of_le (c : String) (h : c.length ≤ MAX_COMMAND_LENGTH - 1) :
    truncCmd c = c := by
  unfold truncCmd
  rw [List.take_of_length_le]
  · cases c; rfl
  · exact h

/-- One step of the history fold, under the invariants maintained by
`foldl_addToHistory`. -/
lemma addToHistory_step (h : List String) (c : String)
    (hc : c ≠ "") (hlen : c.length ≤ MAX_COMMAND_LENGTH - 1)
    (hne : ∀ x, h.getLast? = some x → x ≠ c) :
    addToHistory h c =
      if h.length < MAX_HISTORY_SIZE then h ++ [c] else h.tail ++ [c] := by
  have hlast : ¬ (h.getLast? = some c) := fun heq => hne c heq rfl
  unfold addToHistory
  rw [if_neg hc]
  show (if h.getLast? = some (truncCmd c) then h
        else if h.length < MAX_HISTORY_SIZE then h ++ [truncCmd c]
        else h.tail ++ [truncCmd c]) = _
  rw [truncCmd_of_le c hlen, if_neg hlast]

/-- The history fold over a block of pairwise-consecutively-distinct,
nonempty, short commands keeps exactly the last `MAX_HISTORY_SIZE` of
`h ++ cmds`. -/
lemma foldl_addToHistory (cmds : List String) : ∀ h : List String,
    (∀ c ∈ cmds, c ≠ "" ∧ c.length ≤ MAX_COMMAND_LENGTH - 1) →
    List.Chain' (· ≠ ·) (h ++ cmds) →
    h.length ≤ MAX_HISTORY_SIZE →
    List.foldl addToHistory h cmds =
      (h ++ cmds).drop ((h ++ cmds).length - MAX_HISTORY_SIZE) := by
  induction cmds with
  | nil =>
      intro h _ _ hlen
      rw [List.foldl_nil, List.append_nil, Nat.sub_eq_zero_of_le hlen,
        List.drop_zero]
  | cons c cs ih =>
      intro h hforall hchain hlen
      have hc : c ≠ "" := (hforall c (by simp)).1
      have hclen : c.length ≤ MAX_COMMAND_LENGTH - 1 := (hforall c (by simp)).2
      have hne : ∀ x, h.getLast? = some x → x ≠ c := by
        intro x hx
        have := (List.chain'_append.mp hchain).2.2
        exact this x hx c (by simp)
      have hstep := addToHistory_step h c hc hclen hne
      rw [List.foldl_cons, hstep]
      have hassoc : (h ++ [c]) ++ cs = h ++ c :: cs := by simp
      by_cases hsmall : h.length < MAX_HISTORY_SIZE
      · rw [if_pos hsmall]
        have hchain' : List.Chain' (· ≠ ·) ((h ++ [c]) ++ cs) := by
          rw [hassoc]; exact hchain
        have hrec := ih (h ++ [c])
          (fun x hx => hforall x (by simp [hx]))
          hchain' (by simpa using Nat.succ_le_of_lt hsmall)
        rw [hrec, hassoc]
      · rw [if_neg hsmall]
        have hfull : h.length = MAX_HISTORY_SIZE :=
          Nat.le_antisymm hlen (Nat.le_of_not_lt hsmall)
        rcases h with _ | ⟨a, h'⟩
        · exfalso
          rw [List.length_nil] at hfull
          exact absurd hfull.symm (by norm_num [MAX_HISTORY_SIZE])
        · have hlenh' : h'.length + 1 = MAX_HISTORY_SIZE := by
            simpa using hfull
          have hassoc' : (h' ++ [c]) ++ cs = h' ++ c :: cs := by simp
          have htail : (a :: h').tail ++ [c] = h' ++ [c] := by simp
          rw [htail]
          have hchain' : List.Chain' (· ≠ ·) ((h' ++ [c]) ++ cs) := by
            rw [hassoc']
            have : List.Chain' (· ≠ ·) (a :: (h' ++ c :: cs)) := by
              simpa using hchain
            exact this.tail
          have hlen' : (h' ++ [c]).length ≤ MAX_HISTORY_SIZE := by
            simp [hlenh']
          have hrec := ih (h' ++ [c])
            (fun x hx => hforall x (by simp [hx]))
            hchain' hlen'
          rw [hrec, hassoc']
          have e2 : (h' ++ c :: cs).length - MAX_HISTORY_SIZE = cs.length := by
            simp only [List.length_append, List.length_cons]
            omega
          have e3 : ((a :: h') ++ c :: cs).length - MAX_HISTORY_SIZE
              = cs.length + 1 := by
            simp only [List.cons_append, List.length_cons, List.length_append]
            omega
          rw [e2, e3]
          show List.drop cs.length (h' ++ c :: cs)
            = List.drop (cs.length + 1) (a :: (h' ++ c :: cs))
          rw [List.drop_succ_cons]


/-! ### Witness command sequence for the history FIFO property -/

/-- An injective encoding of `Nat` into short, nonempty command strings:
`n ↦ 'a'*(n/100+1) ++ 'b'*(n%100+1)` (length ≤ 201 for `n ≤ 10000`). -/
def fifoCmd (n : Nat) : String :=
  String.mk (List.replicate (n / 100 + 1) 'a' ++ List.replicate (n % 100 + 1) 'b')

def fifoCmds : List String := (List.range 10001).map fifoCmd

lemma fifoCmd_injective : Function.Injective fifoCmd := by
  intro m n hmn
  have hdata := congrArg String.data hmn
  simp only [fifoCmd] at hdata
  have hab : (('a' : Char) == 'b') = false := by decide
  have hba : (('b' : Char) == 'a') = false := by decide
  have ha := congrArg (List.count 'a') hdata
  have hb := congrArg (List.count 'b') hdata
  simp only [List.count_append, List.count_replicate_self,
    List.count_replicate, hab, hba] at ha hb
  simp at ha hb
  omega

lemma fifoCmd_ne_empty (n : Nat) : fifoCmd n ≠ "" := by
  intro h
  have hdata := congrArg String.data h
  simp [fifoCmd] at hdata

lemma fifoCmd_length (n : Nat) (h : n < 10001) :
    (fifoCmd n).length < MAX_COMMAND_LENGTH := by
  have h2 : n % 100 ≤ 99 := Nat.le_of_lt_succ (Nat.mod_lt n (by norm_num))
  have hlen : (fifoCmd n).length = n / 100 + 1 + (n % 100 + 1) := by
    simp [fifoCmd, String.length]
  have hm : MAX_COMMAND_LENGTH = 256 := by rfl
  omega


/-! ## Claim C8: history is a bounded FIFO of capacity 10000 -/

/-- C8.  History append is a bounded FIFO of capacity 10000: after appending
10001 distinct commands (each nonempty and short enough to be stored intact)
to an initially empty history, the first appended command is absent and the
stored 10000 entries are exactly the insertion-order suffix `cmds.drop 1` of
the appended sequence. -/
theorem history_fifo_evicts_oldest (cmds : List String)
    (hne : ∀ c ∈ cmds, c ≠ "")
    (hshort : ∀ c ∈ cmds, c.length < MAX_COMMAND_LENGTH)
    (hnd : cmds.Nodup) (hcount : cmds.length = 10001) :
    List.foldl addToHistory [] cmds = cmds.drop 1 ∧
    (List.foldl addToHistory [] cmds).length = MAX_HISTORY_SIZE ∧
    ∀ c0 ∈ cmds.take 1, c0 ∉ List.foldl addToHistory [] cmds := by
  have hchain : List.Chain' (· ≠ ·) (([] : List String) ++ cmds) := by
    simpa using hnd.chain'
  have hfold := foldl_addToHistory cmds []
    (fun c hc => ⟨hne c hc, by have := hshort c hc; omega⟩)
    hchain (by norm_num [MAX_HISTORY_SIZE])
  simp only [List.nil_append] at hfold
  have hdrop : cmds.length - MAX_HISTORY_SIZE = 1 := by
    rw [hcount]; rfl
  rw [hdrop] at hfold
  refine ⟨hfold, ?_, ?_⟩
  · rw [hfold, List.length_drop, hcount]; rfl
  · intro c0 hc0 hmem
    rw [hfold] at hmem
    rcases cmds with _ | ⟨a, rest⟩
    · simp at hcount
    · simp at hc0
      subst hc0
      simp only [List.drop_one, List.tail_cons] at hmem
      exact (List.nodup_cons.mp hnd).1 hmem

/-- C8 witness: the concrete sequence `fifoCmds` of 10001 distinct nonempty
commands evaluated through the theorem. -/
theorem history_fifo_evicts_oldest_witness :
    List.foldl addToHistory [] fifoCmds = fifoCmds.drop 1 ∧
    (List.foldl addToHistory [] fifoCmds).length = MAX_HISTORY_SIZE ∧
    ∀ c0 ∈ fifoCmds.take 1, c0 ∉ List.foldl addToHistory [] fifoCmds :=
  history_fifo_evicts_oldest fifoCmds
    (by
      intro c hc
      obtain ⟨n, _, rfl⟩ := List.mem_map.mp hc
      exact fifoCmd_ne_empty n)
    (by
      intro c hc
      obtain ⟨n, hn, rfl⟩ := List.mem_map.mp hc
      exact fifoCmd_length n (List.mem_range.mp hn))
    ((List.nodup_range 10001).map fifoCmd_injective)
    (by simp [fifoCmds])

/-! ## Claim C9: `fg` with an empty job table mutates nothing -/

/-- C9.  Invoking `fg` when the background job table is empty reports
`"fg: no current job"` and changes nothing else: the job table, the job
counter and the foreground pid are unchanged, no signal is sent,
for every parsed argument and every outcome of the OS calls. -/
theorem fg_empty_table_reports_error_mutates_nothing
    (s : ShellState) (arg : Option Nat) (contOk : Bool) (wres : WaitRes)
    (hempty : s.bgJobs = []) :
    handleFg s arg contOk wres =
      { s with display := s.display ++ ["fg: no current job"] } ∧
    (handleFg s arg contOk wres).bgJobs = s.bgJobs ∧
    (handleFg s arg contOk wres).jobCounter = s.jobCounter ∧
    (handleFg s arg contOk wres).fgPid = s.fgPid ∧
    (handleFg s arg contOk wres).sent = s.sent := by
  have h0 : s.bgJobs.length = 0 := by rw [hempty]; rfl
  unfold handleFg
  rw [if_pos h0]
  exact ⟨rfl, rfl, rfl, rfl, rfl⟩

/-- C9 witness: a concrete session state with no background jobs. -/
theorem fg_empty_table_reports_error_mutates_nothing_witness :
    handleFg ⟨false, 0, -1, [], 3, ["x"], [], "fg"⟩ none true .err =
      { signalReceived := false, whichSignal := 0, fgPid := -1, bgJobs := [],
        jobCounter := 3, display := ["x", "fg: no current job"], sent := [],
        currentCommand := "fg" } :=
  (fg_empty_table_reports_error_mutates_nothing
    ⟨false, 0, -1, [], 3, ["x"], [], "fg"⟩ none true .err rfl).1

/-! ## Claim C2: what the OS signal handlers actually do -/

/-- C2 counterexample: the claim says the handlers only set the two signal
flags and never call `kill`, never mutate the job table and never write to
the display buffers.  At this concrete state (foreground pid 5),
`handle_sigtstp` itself sends a signal, appends to the job table, bumps the
job counter, writes a display line and clears the foreground pid. -/
theorem sigtstp_handler_mutates_state_counterexample :
    (handleSigtstp ⟨false, 0, 5, [], 0, [], [], "sleep 5"⟩ true).bgJobs ≠ [] ∧
    (handleSigtstp ⟨false, 0, 5, [], 0, [], [], "sleep 5"⟩ true).sent ≠ [] ∧
    (handleSigtstp ⟨false, 0, 5, [], 0, [], [], "sleep 5"⟩ true).display ≠ [] ∧
    (handleSigtstp ⟨false, 0, 5, [], 0, [], [], "sleep 5"⟩ true).fgPid ≠ 5 := by
  decide

/-- C2 amended.  `handle_sigint` only sets the signal flags (it performs no
reactive work: no `kill`, no job-table, foreground-slot or display mutation),
but `handle_sigtstp` does NOT defer its reactive work to the main loop: with
a live foreground pid it sends `SIGSTOP`, and (on kill success, table not
full) appends the job record, increments the job counter, writes a display
line and clears the foreground slot — all inside the handler. -/
theorem signal_handlers_reactive_work (s : ShellState) (killOk : Bool)
    (hfg : s.fgPid > 0) (hroom : s.bgJobs.length < MAX_BG_JOBS) :
    (handleSigint s).bgJobs = s.bgJobs ∧
    (handleSigint s).sent = s.sent ∧
    (handleSigint s).fgPid = s.fgPid ∧
    (handleSigint s).display = s.display ∧
    (handleSigint s).jobCounter = s.jobCounter ∧
    (handleSigtstp s killOk).sent = s.sent ++ [(s.fgPid, SIGSTOP)] ∧
    (killOk = true →
      (handleSigtstp s killOk).bgJobs =
        s.bgJobs ++ [⟨s.fgPid, "Stopped", truncCmd s.currentCommand,
          s.jobCounter + 1⟩] ∧
      (handleSigtstp s killOk).jobCounter = s.jobCounter + 1 ∧
      (handleSigtstp s killOk).fgPid = -1 ∧
      (handleSigtstp s killOk).display = s.display ++
        ["[" ++ toString (s.jobCounter + 1) ++ "] Stopped    " ++
          truncCmd s.currentCommand]) := by
  refine ⟨rfl, rfl, rfl, rfl, rfl, ?_, ?_⟩
  · unfold handleSigtstp
    rw [if_pos hfg]
    cases killOk
    · rfl
    · simp only [if_pos hroom]
      rfl
  · intro hk
    subst hk
    unfold handleSigtstp
    rw [if_pos hfg]
    simp only [if_pos hroom]
    exact ⟨rfl, rfl, rfl, rfl⟩

/-- C2 witness: the amended theorem evaluated at a concrete state. -/
theorem signal_handlers_reactive_work_witness :
    (handleSigtstp ⟨false, 0, 5, [], 0, [], [], "sleep 5"⟩ true).sent
      = [] ++ [((5 : Int), SIGSTOP)] :=
  (signal_handlers_reactive_work ⟨false, 0, 5, [], 0, [], [], "sleep 5"⟩ true
    (by norm_num) (by norm_num [MAX_BG_JOBS])).2.2.2.2.2.1

/-! ## Claim C6: suspend delivery paths -/

/-- C6 counterexample: the claim requires SIGSTOP, a fresh Stopped job record
and a cleared foreground slot on EVERY suspend delivery path.  On the X11
Ctrl+Z keypress path of `execute_command`'s monitor loop, the code instead
sends `SIGTSTP`, then `SIGKILL` to the still-stopped child, and creates no
job record. -/
theorem suspend_keypress_path_counterexample :
    (suspendKeyPath ⟨false, 0, 7, [], 0, [], [], "sleep 5"⟩ false).sent
        = [((7 : Int), SIGTSTP), ((7 : Int), SIGKILL)] ∧
    ((7 : Int), SIGSTOP) ∉
      (suspendKeyPath ⟨false, 0, 7, [], 0, [], [], "sleep 5"⟩ false).sent ∧
    (suspendKeyPath ⟨false, 0, 7, [], 0, [], [], "sleep 5"⟩ false).bgJobs
        = [] := by
  decide

/-- C6 amended.  Only the `SIGTSTP`-handler delivery path implements the
claimed behaviour: with a Running foreground process it sends `SIGSTOP` (not
`SIGTSTP`), and — when `kill` succeeds and the table is below capacity —
creates a job record with the strictly larger, never-reused id
`job_counter + 1`, status `"Stopped"`, storing the command text, and clears
the foreground slot.  The X11 Ctrl+Z keypress path does none of this (see
the counterexample). -/
theorem suspend_handler_path_stop_and_job (s : ShellState)
    (hfg : s.fgPid > 0) (hroom : s.bgJobs.length < MAX_BG_JOBS) :
    (handleSigtstp s true).sent = s.sent ++ [(s.fgPid, SIGSTOP)] ∧
    (handleSigtstp s true).bgJobs =
      s.bgJobs ++ [⟨s.fgPid, "Stopped", truncCmd s.currentCommand,
        s.jobCounter + 1⟩] ∧
    s.jobCounter < (handleSigtstp s true).jobCounter ∧
    (handleSigtstp s true).fgPid = -1 := by
  unfold handleSigtstp
  rw [if_pos hfg]
  simp only [if_pos hroom]
  exact ⟨rfl, rfl, Nat.lt_succ_self _, rfl⟩

/-- C6 witness: handler path evaluated at a concrete state with foreground
pid 9. -/
theorem suspend_handler_path_stop_and_job_witness :
    (handleSigtstp ⟨false, 0, 9, [], 4, [], [], "cat"⟩ true).bgJobs
      = [] ++ [⟨(9 : Int), "Stopped", truncCmd "cat", 5⟩] :=
  (suspend_handler_path_stop_and_job ⟨false, 0, 9, [], 4, [], [], "cat"⟩
    (by norm_num) (by norm_num [MAX_BG_JOBS])).2.1

/-! ## Pipeline parsing (`execute_command`, step 6, lines 2826-2843)

The C code splits the raw command line on `'|'` with `strtok`, which skips
empty fields, and stores at most 15 extra stages past the first one
(`while (.. != NULL && num_commands < 15) num_commands++`).  When only one
token results, the single-command path re-parses the raw line itself. -/

/-- Split on `'|'`, keeping empty fields (raw field decomposition). -/
def splitPipe : List Char → List (List Char)
  | [] => [[]]
  | c :: cs =>
    let rest := splitPipe cs
    if c = '|' then [] :: rest
    else (c :: rest.headD []) :: rest.tail

/-- `strtok(.., "|")` token stream: the nonempty `'|'`-separated fields. -/
def strtokSplit (l : List Char) : List (List Char) :=
  (splitPipe l).filter (fun t => !t.isEmpty)

/-- The stage-collection loop of lines 2840-2843: starting from
`num_commands = num`, keep consuming tokens while `num < 15`. -/
def stageLoop : List (List Char) → Nat → List (List Char)
  | [], _ => []
  | t :: ts, num => if num < 15 then t :: stageLoop ts (num + 1) else []

/-- The list of pipeline stages `execute_command` actually runs
(`commands[0..num_commands-1]`); a single-token line falls into the
single-command path, which re-parses the raw `command` string. -/
def codeStages (line : List Char) : List (List Char) :=
  match strtokSplit line with
  | [] => [line]
  | t0 :: rest =>
    match stageLoop rest 1 with
    | [] => [line]
    | m :: ms => t0 :: m :: ms

/-- Step 6 of `execute_command` as a fallible parse: the only rejection is
the `snprintf` length guard (lines 2831-2836); the stage count is never
checked, so no stage-count error can arise. -/
def codeParsePipeline (line : List Char) : Except String (List (List Char)) :=
  if MAX_COMMAND_LENGTH ≤ line.length then Except.error "Error: Command too long"
  else Except.ok (codeStages line)

/-- Joining stages back with `'|'` (the shape of well-formed pipeline input). -/
def joinPipe : List (List Char) → List Char
  | [] => []
  | [st] => st
  | st :: s2 :: rest => st ++ '|' :: joinPipe (s2 :: rest)

/-- Whitespace trimming applied to each pipeline stage by the child
(lines 3296-3304). -/
def trimStage (s : List Char) : List Char :=
  ((s.dropWhile (fun c => c = ' ')).reverse.dropWhile (fun c => c = ' ')).reverse

/-! ## Pipe wiring of the pipeline path (lines 3183-3287)

All `num_commands - 1` connecting pipes are created UP FRONT into the two
alternating array slots `pipefds[i % 2]` (lines 3196-3207); a slot created
later overwrites the record of an earlier pipe.  Child `i` then dup2's its
stdin from `pipefds[(i-1) % 2][0]` and its stdout/stderr to
`pipefds[i % 2][1]`, or to the final capture pipe if it is the last stage
(lines 3241-3278).  We number the pipe created at loop index `i` as pipe
`i`; `none` stands for the inherited stdin / the final capture pipe. -/

/-- Contents of the two pipe slots after the creation loop of lines
3196-3207. -/
def slotsAfter (n : Nat) : Option Nat × Option Nat :=
  (List.range (n - 1)).foldl
    (fun s i => if i % 2 = 0 then (some i, s.2) else (s.1, some i))
    (none, none)

def slotOf (n p : Nat) : Option Nat :=
  if p = 0 then (slotsAfter n).1 else (slotsAfter n).2

/-- The pipe child `i`'s stdout/stderr are wired to (`none` = final capture
pipe). -/
def codeStdoutPipe (n i : Nat) : Option Nat :=
  if i + 1 < n then slotOf n (i % 2) else none

/-- The pipe child `i`'s stdin is wired to (`none` = inherited stdin). -/
def codeStdinPipe (n i : Nat) : Option Nat :=
  if i = 0 then none else slotOf n ((i - 1) % 2)

/-- All stages whose stdout is wired to pipe `p`. -/
def writersTo (n p : Nat) : List Nat :=
  (List.range n).filter (fun i => codeStdoutPipe n i == some p)

/-- All stages whose stdin is wired to pipe `p`. -/
def readersFrom (n p : Nat) : List Nat :=
  (List.range n).filter (fun i => codeStdinPipe n i == some p)

/-- The wiring forms a proper chain: every connecting pipe `p` has exactly
one writer (stage `p`) and one reader (stage `p+1`).  Only then is the
byte flow deterministic and stage-to-stage. -/
def chainWiring (n : Nat) : Bool :=
  (List.range (n - 1)).all
    (fun p => writersTo n p == [p] && readersFrom n p == [p + 1])

/-- Captured result of `execute_command` on a pipeline, as a function of a
stage-semantics environment `env` (command text ↦ stdin contents ↦ combined
stdout+stderr output) and the initial stdin `inp`.  When the pipe wiring is
a proper chain, each stage's input is exactly the previous stage's output
and the capture pipe receives the last stage's output, so the result is the
left fold of `env` over the stages; when the wiring is not a chain (several
writers or readers share one pipe) the byte routing depends on the OS
scheduler and no deterministic result exists, which we model as `none`. -/
def codeCaptured (env : List Char → List Char → List Char)
    (inp : List Char) (line : List Char) : Option (List Char) :=
  if chainWiring (codeStages line).length then
    some ((codeStages line).foldl (fun acc c => env (trimStage c) acc) inp)
  else none

/-- Modelled from the spec: the reference result of running
`sh -c "c1|c2|...|cN"` (an external program, not part of this repository) —
each stage's stdout feeds the next stage's stdin, so the captured output is
the composition of the stage semantics over the `'|'`-separated stages. -/
def shCaptured (env : List Char → List Char → List Char)
    (inp : List Char) (line : List Char) : List Char :=
  (strtokSplit line).foldl (fun acc c => env (trimStage c) acc) inp

/-! ### Parsing lemmas -/

lemma splitPipe_cons (c : Char) (cs : List Char) :
    splitPipe (c :: cs) =
      if c = '|' then [] :: splitPipe cs
      else (c :: (splitPipe cs).headD []) :: (splitPipe cs).tail := rfl

lemma splitPipe_ne_nil (l : List Char) : splitPipe l ≠ [] := by
  cases l with
  | nil => simp [splitPipe]
  | cons c cs => simp [splitPipe]; split <;> simp

lemma splitPipe_no_pipe (a : List Char) (h : '|' ∉ a) : splitPipe a = [a] := by
  induction a with
  | nil => rfl
  | cons c cs ih =>
      have hc : c ≠ '|' := fun hc => h (hc ▸ List.mem_cons_self c cs)
      have hcs : '|' ∉ cs := fun hm => h (List.mem_cons_of_mem c hm)
      simp [splitPipe, hc, ih hcs]

lemma splitPipe_append_pipe (a b : List Char) (h : '|' ∉ a) :
    splitPipe (a ++ '|' :: b) = a :: splitPipe b := by
  induction a with
  | nil => simp [splitPipe]
  | cons c cs ih =>
      have hc : c ≠ '|' := fun hc => h (hc ▸ List.mem_cons_self c cs)
      have hcs : '|' ∉ cs := fun hm => h (List.mem_cons_of_mem c hm)
      rw [List.cons_append, splitPipe_cons, if_neg hc, ih hcs]
      simp

lemma splitPipe_joinPipe (stages : List (List Char)) (hne : stages ≠ [])
    (hwf : ∀ st ∈ stages, '|' ∉ st) :
    splitPipe (joinPipe stages) = stages := by
  induction stages with
  | nil => exact absurd rfl hne
  | cons st rest ih =>
      cases rest with
      | nil =>
          rw [show joinPipe [st] = st from rfl]
          exact splitPipe_no_pipe st (hwf st (by simp))
      | cons s2 rest' =>
          have hst : '|' ∉ st := hwf st (by simp)
          rw [show joinPipe (st :: s2 :: rest')
                = st ++ '|' :: joinPipe (s2 :: rest') from rfl]
          rw [splitPipe_append_pipe st _ hst]
          rw [ih (by simp) (fun x hx => hwf x (List.mem_cons_of_mem st hx))]

lemma strtokSplit_joinPipe (stages : List (List Char)) (hne : stages ≠ [])
    (hwf : ∀ st ∈ stages, st ≠ [] ∧ '|' ∉ st) :
    strtokSplit (joinPipe stages) = stages := by
  unfold strtokSplit
  rw [splitPipe_joinPipe stages hne (fun st hst => (hwf st hst).2)]
  rw [List.filter_eq_self]
  intro a ha
  simpa using (hwf a ha).1

lemma stageLoop_eq_take : ∀ (ts : List (List Char)) (num : Nat), num ≤ 15 →
    stageLoop ts num = ts.take (15 - num) := by
  intro ts
  induction ts with
  | nil => intro num _; simp [stageLoop]
  | cons t ts' ih =>
      intro num hnum
      unfold stageLoop
      by_cases h : num < 15
      · rw [if_pos h, ih (num + 1) h]
        have : 15 - num = (15 - (num + 1)) + 1 := by omega
        rw [this, List.take_succ_cons]
      · rw [if_neg h]
        have : num = 15 := by omega
        subst this
        simp

lemma codeStages_of_multi (line : List Char)
    (h : 2 ≤ (strtokSplit line).length) :
    codeStages line = (strtokSplit line).take 15 := by
  rcases hsplit : strtokSplit line with _ | ⟨t0, _ | ⟨t1, rest'⟩⟩
  · rw [hsplit] at h; simp at h
  · rw [hsplit] at h; simp at h
  · unfold codeStages
    rw [hsplit]
    show (match stageLoop (t1 :: rest') 1 with
          | [] => [line]
          | m :: ms => t0 :: m :: ms) = List.take 15 (t0 :: t1 :: rest')
    have h1 : stageLoop (t1 :: rest') 1 = t1 :: stageLoop rest' 2 := by
      simp [stageLoop]
    rw [h1, stageLoop_eq_take rest' 2 (by omega)]
    rfl

lemma codeStages_joinPipe (stages : List (List Char)) (hne : stages ≠ [])
    (hwf : ∀ st ∈ stages, st ≠ [] ∧ '|' ∉ st) (hlen : stages.length ≤ 15) :
    codeStages (joinPipe stages) = stages := by
  have hsplit := strtokSplit_joinPipe stages hne hwf
  rcases stages with _ | ⟨st, _ | ⟨s2, rest'⟩⟩
  · exact absurd rfl hne
  · unfold codeStages
    rw [hsplit]
    rfl
  · rw [codeStages_of_multi _ (by rw [hsplit]; simp), hsplit]
    exact List.take_of_length_le hlen

/-! ## Claim C3: stage counts above 16 are silently truncated, not rejected -/

/-- A well-formed 17-stage pipeline line. -/
def line17 : List Char := ("a|b|c|d|e|f|g|h|i|j|k|l|m|n|o|p|q").toList

/-- C3 counterexample: the claim says a line with more than 16 stages fails
with a ParseError and is not run.  On this 17-stage line the parse succeeds
(`Except.ok`), returning the first 15 stages, which `execute_command` then
runs. -/
theorem overlong_pipeline_accepted_counterexample :
    codeParsePipeline line17 = Except.ok ((strtokSplit line17).take 15) ∧
    (strtokSplit line17).length = 17 ∧
    (codeStages line17).length = 15 := by
  exact ⟨rfl, rfl, rfl⟩

/-- C3 amended.  A submitted line whose pipeline stage count exceeds 16 is
NOT rejected: `execute_command` never checks the stage count (its only parse
rejection is the 256-byte length guard), and the `strtok` loop silently
keeps only the first 15 stages, which are then run. -/
theorem overlong_pipeline_truncated_not_rejected (line : List Char)
    (hshort : line.length < MAX_COMMAND_LENGTH)
    (hmulti : 2 ≤ (strtokSplit line).length) :
    codeParsePipeline line = Except.ok ((strtokSplit line).take 15) ∧
    ∀ e, codeParsePipeline line ≠ Except.error e := by
  have hok : codeParsePipeline line = Except.ok (codeStages line) := by
    unfold codeParsePipeline
    rw [if_neg (by omega)]
  rw [hok, codeStages_of_multi line hmulti]
  exact ⟨rfl, fun e h => by simp at h⟩

/-- C3 witness: the amended theorem evaluated on the 17-stage line. -/
theorem overlong_pipeline_truncated_not_rejected_witness :
    codeParsePipeline line17 = Except.ok ((strtokSplit line17).take 15) ∧
    ∀ e, codeParsePipeline line17 ≠ Except.error e :=
  overlong_pipeline_truncated_not_rejected line17 (by decide) (by decide)

/-! ## Claim C1: pipeline refinement against `sh -c` -/

/-- A well-formed 16-stage pipeline line. -/
def line16 : List Char := ("a|b|c|d|e|f|g|h|i|j|k|l|m|n|o|p").toList

/-- C1 counterexample: the claim asserts sh-equivalence for 1-16 stages
with each adjacent stage pair joined by its own connecting pipe.  With 4
stages, the up-front pipe creation into two alternating slots leaves stage 0
and stage 2 both writing pipe 2 while stages 1 and 3 both read it — the
wiring is not a chain, so stage 0's bytes can flow directly to stage 3 —
and a 16-stage line is anyway truncated to 15 stages, unlike `sh`. -/
theorem pipeline_wiring_shared_pipes_counterexample :
    chainWiring 4 = false ∧
    codeStdoutPipe 4 0 = some 2 ∧
    writersTo 4 2 = [0, 2] ∧
    readersFrom 4 2 = [1, 3] ∧
    (strtokSplit line16).length = 16 ∧
    (codeStages line16).length = 15 := by
  refine ⟨by decide, by decide, by decide, by decide, rfl, rfl⟩

/-- C1 amended.  The sh-equivalence holds only for pipelines of 1 to 3
stages: there the connecting pipes form a proper chain — stage `i`'s
stdout and stage `i+1`'s stdin share the dedicated pipe `i` — and the
captured result equals the `sh -c "c1|c2|...|cN"` composition of the stage
semantics.  For 4 or more stages the two alternating pipe slots are
overwritten during up-front creation and non-adjacent stages share pipes
(see the counterexample); lines of 16 or more stages are additionally
truncated to 15 stages. -/
theorem pipeline_le3_matches_sh (stages : List (List Char))
    (env : List Char → List Char → List Char) (inp : List Char)
    (hne : stages ≠ []) (hlen : stages.length ≤ 3)
    (hst : ∀ st ∈ stages, st ≠ [] ∧ '|' ∉ st) :
    codeCaptured env inp (joinPipe stages)
      = some (shCaptured env inp (joinPipe stages)) ∧
    ∀ i, i + 1 < stages.length →
      codeStdoutPipe stages.length i = some i ∧
      codeStdinPipe stages.length (i + 1) = some i := by
  have hsplit := strtokSplit_joinPipe stages hne hst
  have hcs := codeStages_joinPipe stages hne hst (by omega)
  have hn1 : 1 ≤ stages.length := by
    rcases stages with _ | _
    · exact absurd rfl hne
    · simp
  have hcases : stages.length = 1 ∨ stages.length = 2 ∨ stages.length = 3 := by
    omega
  have hchain : chainWiring stages.length = true := by
    rcases hcases with h | h | h <;> rw [h] <;> decide
  constructor
  · unfold codeCaptured shCaptured
    rw [hcs, hsplit, if_pos hchain]
  · intro i hi
    rcases hcases with h | h | h <;> rw [h] at hi ⊢
    · omega
    · have hi0 : i = 0 := by omega
      subst hi0
      exact ⟨by decide, by decide⟩
    · have hi01 : i = 0 ∨ i = 1 := by omega
      rcases hi01 with hi0 | hi1
      · subst hi0
        exact ⟨by decide, by decide⟩
      · subst hi1
        exact ⟨by decide, by decide⟩

/-- A concrete stage semantics for the C1 witness: each stage outputs its
own command text prepended to its input. -/
def envCat : List Char → List Char → List Char := fun c s => c ++ s

def stages3 : List (List Char) := [['e'], ['f'], ['g']]

/-- C1 witness: the amended equivalence evaluated on the concrete 3-stage
pipeline `e|f|g`. -/
theorem pipeline_le3_matches_sh_witness :
    codeCaptured envCat [] (joinPipe stages3)
      = some (shCaptured envCat [] (joinPipe stages3)) :=
  (pipeline_le3_matches_sh stages3 envCat []
    (by decide) (by decide) (by decide)).1

/-! ## History reverse search

`find_longest_common_substring` (lines 1250-1330) and `search_history`
(lines 1365-1493), single-best mode (`show_multiple = 0`).  Strings are
embedded as `List Char`; the C code's 1024-byte lowercase copies never
truncate because commands are at most 255 characters. -/

/-- `tolower` in the default C locale: ASCII only. -/
def asciiToLower (c : Char) : Char :=
  if 'A' ≤ c ∧ c ≤ 'Z' then Char.ofNat (c.toNat + 32) else c

def lowerStr (s : List Char) : List Char := s.map asciiToLower

/-- `strstr(s, pat) != NULL`: `pat` occurs contiguously in `s`. -/
def containsSub (s pat : List Char) : Bool :=
  s.tails.any (fun t => pat.isPrefixOf t)

/-- The inner while loop of the DP (lines 1310-1316): length of the common
case-insensitive prefix. -/
def commonPrefLenCI : List Char → List Char → Nat
  | a :: as, b :: bs =>
    if asciiToLower a = asciiToLower b then commonPrefLenCI as bs + 1 else 0
  | _, _ => 0

/-- The double loop of lines 1303-1326: maximum over all start positions of
the common case-insensitive prefix length. -/
def lcsDP (s1 s2 : List Char) : Nat :=
  (s1.tails.map
    (fun t1 => (s2.tails.map (fun t2 => commonPrefLenCI t1 t2)).foldr max 0)
  ).foldr max 0

/-- `find_longest_common_substring(str1, str2)` (lines 1250-1330): 0 on an
empty argument; `str1.length` if `str1` occurs in `str2` (case-sensitively,
lines 1265-1271, or case-insensitively, lines 1273-1299); otherwise the DP
maximum. -/
def lcsScore (str1 str2 : List Char) : Nat :=
  if str1 = [] ∨ str2 = [] then 0
  else if containsSub str2 str1 then str1.length
  else if containsSub (lowerStr str2) (lowerStr str1) then str1.length
  else lcsDP str1 str2

/-- The collection criterion of line 1432: score at least 1. -/
def scoreOK (term e : List Char) : Bool := 1 ≤ lcsScore term e

/-- The match-collection loop of lines 1407-1440: scan entries (given here
most-recent-first), skip empty ones, and store each entry scoring ≥ 1 while
fewer than `MAX_DISPLAY_MATCHES = 10` matches are stored; entries examined
after the window is full are scored but never stored. -/
def collectMatches (term : List Char) :
    List (List Char) → Nat → List (List Char × Nat)
  | [], _ => []
  | e :: rest, cnt =>
    if e = [] then collectMatches term rest cnt
    else
      if 1 ≤ lcsScore term e ∧ cnt < 10 then
        (e, lcsScore term e) :: collectMatches term rest (cnt + 1)
      else collectMatches term rest cnt

/-- The best-match selection loop of lines 1476-1484: keep the current best
unless a strictly longer match appears, so the earliest (most recent)
maximal entry wins. -/
def bestLoop : (List Char × Nat) → List (List Char × Nat) → (List Char × Nat)
  | best, [] => best
  | best, m :: ms => if best.2 < m.2 then bestLoop m ms else bestLoop best ms

/-- `search_history(tab, term, result, 0)` (lines 1365-1493): `none` models
the `return 0` paths (empty or over-long term, no matches); `some r` the
single best match copied into `result`.  `hist` is stored oldest-first, so
the scan runs over `hist.reverse`. -/
def searchBest (hist : List (List Char)) (term : List Char) :
    Option (List Char) :=
  if term = [] then none
  else if MAX_COMMAND_LENGTH ≤ term.length then none
  else
    match collectMatches term hist.reverse 0 with
    | [] => none
    | m :: ms => some (bestLoop m ms).1

/-- Maximum score of a collected match list. -/
def maxScore (l : List (List Char × Nat)) : Nat :=
  l.foldr (fun p acc => max p.2 acc) 0

/-- Declarative description of `search_history`: among the window of the at
most 10 most-recent entries scoring ≥ 1, the first (most recent) entry
achieving the maximal score. -/
def specSearch (hist : List (List Char)) (term : List Char) :
    Option (List Char) :=
  if term = [] then none
  else if MAX_COMMAND_LENGTH ≤ term.length then none
  else
    let w := (hist.reverse.filter (scoreOK term)).take 10
    w.find? (fun e => lcsScore term e == (w.map (lcsScore term)).foldr max 0)

lemma lcsScore_nil_right (term : List Char) : lcsScore term [] = 0 := by
  simp [lcsScore]

/-- The collection loop is `take (10 - cnt)` of the score-filtered scan,
paired with the scores. -/
lemma collectMatches_eq (term : List Char) : ∀ (es : List (List Char))
    (cnt : Nat), cnt ≤ 10 →
    collectMatches term es cnt =
      ((es.filter (scoreOK term)).take (10 - cnt)).map
        (fun e => (e, lcsScore term e)) := by
  intro es
  induction es with
  | nil => intro cnt _; simp [collectMatches]
  | cons e rest ih =>
      intro cnt hcnt
      by_cases he : e = []
      · subst he
        rw [show collectMatches term ([] :: rest) cnt
            = collectMatches term rest cnt from by simp [collectMatches]]
        rw [ih cnt hcnt]
        have : scoreOK term [] = false := by
          simp [scoreOK, lcsScore_nil_right]
        simp [this]
      · by_cases hsc : 1 ≤ lcsScore term e
        · have hfil : scoreOK term e = true := by
            simp [scoreOK, hsc]
          by_cases hlt : cnt < 10
          · rw [show collectMatches term (e :: rest) cnt
                = (e, lcsScore term e) :: collectMatches term rest (cnt + 1)
                from by simp [collectMatches, he, hsc, hlt]]
            rw [ih (cnt + 1) hlt]
            rw [List.filter_cons_of_pos hfil]
            have : 10 - cnt = (10 - (cnt + 1)) + 1 := by omega
            rw [this, List.take_succ_cons, List.map_cons]
          · have hc10 : cnt = 10 := by omega
            subst hc10
            rw [show collectMatches term (e :: rest) 10
                = collectMatches term rest 10
                from by simp [collectMatches, he]]
            rw [ih 10 (by omega)]
            simp
        · have hfil : scoreOK term e = false := by
            simp [scoreOK]
            omega
          rw [show collectMatches term (e :: rest) cnt
              = collectMatches term rest cnt
              from by simp [collectMatches, he, hsc]]
          rw [ih cnt hcnt, List.filter_cons_of_neg (by simp [hfil])]

lemma maxScore_cons (p : List Char × Nat) (l : List (List Char × Nat)) :
    maxScore (p :: l) = max p.2 (maxScore l) := rfl

/-- `find?_cons` specialisations with the predicate explicit, to control
unification. -/
lemma find?_cons_pos {α : Type} (p : α → Bool) (a : α) (l : List α)
    (h : p a = true) : List.find? p (a :: l) = some a := by
  simp [List.find?, h]

lemma find?_cons_neg {α : Type} (p : α → Bool) (a : α) (l : List α)
    (h : p a = false) : List.find? p (a :: l) = List.find? p l := by
  simp [List.find?, h]

/-- The selection loop returns exactly the first entry of the match list
achieving the maximal score. -/
lemma bestLoop_first_max : ∀ (ms : List (List Char × Nat))
    (m : List Char × Nat),
    (m :: ms).find? (fun p => p.2 == maxScore (m :: ms))
      = some (bestLoop m ms) := by
  intro ms
  induction ms with
  | nil =>
      intro m
      have hpm : (fun p : List Char × Nat => p.2 == maxScore [m]) m = true := by
        simp [maxScore]
      rw [find?_cons_pos (fun p : List Char × Nat => p.2 == maxScore [m]) m []
        hpm]
      rfl
  | cons x xs ih =>
      intro m
      by_cases hlt : m.2 < x.2
      · have h1 : x.2 ≤ maxScore (x :: xs) := by
          rw [maxScore_cons]; exact Nat.le_max_left _ _
        have hmlt : m.2 < maxScore (x :: xs) := lt_of_lt_of_le hlt h1
        have hM : maxScore (m :: x :: xs) = maxScore (x :: xs) := by
          rw [maxScore_cons]
          exact Nat.max_eq_right (le_of_lt hmlt)
        have hfm : (fun p : List Char × Nat =>
            p.2 == maxScore (m :: x :: xs)) m = false := by
          have hne : m.2 ≠ maxScore (m :: x :: xs) := by
            rw [hM]; exact Nat.ne_of_lt hmlt
          simpa using hne
        rw [find?_cons_neg
          (fun p : List Char × Nat => p.2 == maxScore (m :: x :: xs))
          m (x :: xs) hfm]
        rw [show bestLoop m (x :: xs) = bestLoop x xs
            from by simp [bestLoop, hlt]]
        rw [hM]
        exact ih x
      · have hxm : x.2 ≤ m.2 := Nat.le_of_not_lt hlt
        have hM : maxScore (m :: x :: xs) = maxScore (m :: xs) := by
          rw [maxScore_cons, maxScore_cons, maxScore_cons, ← Nat.max_assoc,
            Nat.max_eq_left hxm]
        rw [show bestLoop m (x :: xs) = bestLoop m xs
            from by simp [bestLoop, hlt]]
        rw [hM]
        have hrec := ih m
        by_cases hmtop : m.2 = maxScore (m :: xs)
        · have hpm : (fun p : List Char × Nat =>
              p.2 == maxScore (m :: xs)) m = true := by simpa using hmtop
          rw [find?_cons_pos
            (fun p : List Char × Nat => p.2 == maxScore (m :: xs))
            m (x :: xs) hpm]
          rw [find?_cons_pos
            (fun p : List Char × Nat => p.2 == maxScore (m :: xs))
            m xs hpm] at hrec
          exact hrec
        · have hmle : m.2 ≤ maxScore (m :: xs) := by
            rw [maxScore_cons]; exact Nat.le_max_left _ _
          have hmlt : m.2 < maxScore (m :: xs) := lt_of_le_of_ne hmle hmtop
          have hfm : (fun p : List Char × Nat =>
              p.2 == maxScore (m :: xs)) m = false := by simpa using hmtop
          have hfx : (fun p : List Char × Nat =>
              p.2 == maxScore (m :: xs)) x = false := by
            have hne : x.2 ≠ maxScore (m :: xs) :=
              Nat.ne_of_lt (lt_of_le_of_lt hxm hmlt)
            simpa using hne
          rw [find?_cons_neg
            (fun p : List Char × Nat => p.2 == maxScore (m :: xs))
            m (x :: xs) hfm]
          rw [find?_cons_neg
            (fun p : List Char × Nat => p.2 == maxScore (m :: xs))
            x xs hfx]
          rw [find?_cons_neg
            (fun p : List Char × Nat => p.2 == maxScore (m :: xs))
            m xs hfm] at hrec
          exact hrec

lemma maxScore_map (term : List Char) (l : List (List Char)) :
    maxScore (l.map (fun e => (e, lcsScore term e)))
      = (l.map (lcsScore term)).foldr max 0 := by
  unfold maxScore
  rw [List.foldr_map, List.foldr_map]

/-- The operational `search_history` equals its declarative description:
the first (most recent) maximal-score entry of the 10-entry window. -/
lemma searchBest_eq_specSearch (hist : List (List Char)) (term : List Char) :
    searchBest hist term = specSearch hist term := by
  unfold searchBest specSearch
  by_cases h1 : term = []
  · rw [if_pos h1, if_pos h1]
  · rw [if_neg h1, if_neg h1]
    by_cases h2 : MAX_COMMAND_LENGTH ≤ term.length
    · rw [if_pos h2, if_pos h2]
    · rw [if_neg h2, if_neg h2]
      have hcol := collectMatches_eq term hist.reverse 0 (by omega)
      rw [show (10 : Nat) - 0 = 10 from rfl] at hcol
      rcases hwc : (hist.reverse.filter (scoreOK term)).take 10
        with _ | ⟨e0, w'⟩
      · rw [hwc] at hcol
        rw [hcol]
        simp
      · rw [hwc] at hcol
        rw [hcol]
        show some (bestLoop (e0, lcsScore term e0)
            (w'.map (fun e => (e, lcsScore term e)))).1
          = List.find?
              (fun e => lcsScore term e
                == (List.map (lcsScore term) (e0 :: w')).foldr max 0)
              (e0 :: w')
        have hbl := bestLoop_first_max
          (w'.map (fun e => (e, lcsScore term e))) (e0, lcsScore term e0)
        have hmapcons : (e0, lcsScore term e0)
            :: w'.map (fun e => (e, lcsScore term e))
            = (e0 :: w').map (fun e => (e, lcsScore term e)) := by
          rw [List.map_cons]
        rw [hmapcons, maxScore_map term (e0 :: w'), List.find?_map] at hbl
        rcases hfind : (e0 :: w').find?
            ((fun p : List Char × Nat =>
              p.2 == (List.map (lcsScore term) (e0 :: w')).foldr max 0)
              ∘ (fun e => (e, lcsScore term e)))
          with _ | e1
        · rw [hfind] at hbl
          simp at hbl
        · rw [hfind] at hbl
          rw [Option.map_some'] at hbl
          have hbl' := Option.some.inj hbl
          have hb1 : (bestLoop (e0, lcsScore term e0)
              (w'.map (fun e => (e, lcsScore term e)))).1 = e1 := by
            rw [← hbl']
          rw [hb1]
          have hpred : ((fun p : List Char × Nat =>
              p.2 == (List.map (lcsScore term) (e0 :: w')).foldr max 0)
              ∘ (fun e => (e, lcsScore term e)))
              = (fun e => lcsScore term e
                  == (List.map (lcsScore term) (e0 :: w')).foldr max 0) := by
            rfl
          rw [hpred] at hfind
          rw [hfind]

/-! ## Claim C4: reverse search scoring and tie-breaking -/

/-- The spec's worked example history, oldest first. -/
def histPwd : List (List Char) :=
  [("ls -la").toList, ("pwd").toList, ("pwd -P").toList]

/-- A history defeating the global-maximum reading: the only entry with
score 2 for term `"zz"` is the oldest, hidden behind ten score-1 entries. -/
def histZ : List (List Char) :=
  [("zz").toList, ("az1").toList, ("az2").toList, ("az3").toList,
   ("az4").toList, ("az5").toList, ("az6").toList, ("az7").toList,
   ("az8").toList, ("az9").toList, ("az10").toList]

/-- C4 counterexample: the claim says that among ALL entries achieving the
maximum score, the most recent is returned.  For term `"zz"` on `histZ`, the
unique global maximum (score 2) is the oldest entry `"zz"`, but the search
returns `"az10"` (score 1), because `"zz"` lies outside the 10-entry
collection window. -/
theorem search_ignores_older_global_max_counterexample :
    searchBest histZ (("zz").toList) = some (("az10").toList) ∧
    lcsScore (("zz").toList) (("zz").toList) = 2 ∧
    histZ.filter (fun e => 2 ≤ lcsScore (("zz").toList) e)
      = [("zz").toList] := by
  refine ⟨by decide, by decide, by decide⟩

/-- C4 amended.  `search_history` scans most-recent-first, scoring each
entry by the case-insensitive longest-common-substring length with exact
containment short-circuiting to `len(term)`; it collects at most the 10
most-recent entries with score ≥ 1 and returns, among that window only, the
entry with the maximal score, the most recent winning ties.  In particular,
on history `["ls -la", "pwd", "pwd -P"]`, searching `"pwd"` returns
`"pwd -P"`. -/
theorem search_best_is_windowed_recency_max :
    (∀ hist term, searchBest hist term = specSearch hist term) ∧
    searchBest histPwd (("pwd").toList) = some (("pwd -P").toList) := by
  exact ⟨searchBest_eq_specSearch, by decide⟩

/-! ## Claim C10: the 10-entry collection window -/

/-- C10.  The collection loop stores at most the 10 most-recent entries
scoring ≥ 1 and the best match is chosen only among them; consequently, on
`histZ` with term `"zz"`, the window consists of ten score-1 entries, the
older entry `"zz"` with the strictly larger score 2 is never collected, and
the search returns `"az10"` instead of `"zz"`. -/
theorem search_window_caps_at_ten :
    (∀ (hist : List (List Char)) (term : List Char),
      (collectMatches term hist.reverse 0).length ≤ 10) ∧
    (collectMatches (("zz").toList) histZ.reverse 0).length = 10 ∧
    (collectMatches (("zz").toList) histZ.reverse 0).all
      (fun p => p.2 < 2 && p.1 ≠ ("zz").toList) = true ∧
    searchBest histZ (("zz").toList) = some (("az10").toList) ∧
    lcsScore (("zz").toList) (("zz").toList) = 2 := by
  refine ⟨?_, by decide, by decide, by decide, by decide⟩
  intro hist term
  rw [collectMatches_eq term hist.reverse 0 (by omega)]
  rw [List.length_map]
  calc ((hist.reverse.filter (scoreOK term)).take (10 - 0)).length
      ≤ 10 - 0 := by
        rw [List.length_take]
        exact Nat.min_le_left _ _
    _ ≤ 10 := by omega

/-! ## Output collection (single-command monitor loop, lines 3073-3131)

The monitor loop reads chunks of at most 1023 bytes (`read(.., 1023)`) into
`full_output`; a chunk is appended only while
`full_output_len + bytes_read < OUTPUT_BUFFER_SIZE - 1`, i.e. while the
total stays below 4095; otherwise the warning `"Warning: Output truncated
(too large)"` is emitted and the loop breaks.  After child exit a residual
loop (lines 3122-3131) keeps reading: fitting chunks are appended, others
silently dropped.  Bytes are embedded as `Nat`, byte streams as chunk
lists. -/

structure DrainSt where
  acc : List Nat
  warned : Bool
  halted : Bool
deriving DecidableEq, Repr

/-- One monitor-loop read iteration (lines 3073-3093). -/
def drainStep (s : DrainSt) (c : List Nat) : DrainSt :=
  if s.halted then s
  else if s.acc.length + c.length < OUTPUT_BUFFER_SIZE - 1 then
    { s with acc := s.acc ++ c }
  else { s with warned := true, halted := true }

/-- The monitor loop over the sequence of chunks the OS delivers. -/
def drainMonitor (chunks : List (List Nat)) : DrainSt :=
  chunks.foldl drainStep ⟨[], false, false⟩

/-- The residual drain after child exit (lines 3122-3131): no warning, no
halt, non-fitting chunks silently dropped. -/
def drainResidual (acc : List Nat) (chunks : List (List Nat)) : List Nat :=
  chunks.foldl
    (fun a c =>
      if a.length + c.length < OUTPUT_BUFFER_SIZE - 1 then a ++ c else a)
    acc

/-- Total captured output: monitor phase then residual phase. -/
def capturedOutput (m r : List (List Nat)) : List Nat :=
  drainResidual (drainMonitor m).acc r

lemma drainStep_acc_le (s : DrainSt) (c : List Nat)
    (h : s.acc.length ≤ OUTPUT_BUFFER_SIZE - 2) :
    (drainStep s c).acc.length ≤ OUTPUT_BUFFER_SIZE - 2 := by
  unfold drainStep
  split
  · exact h
  · split
    · next hfit =>
        simp only [List.length_append]
        have : OUTPUT_BUFFER_SIZE - 1 = 4095 := by rfl
        have h2 : OUTPUT_BUFFER_SIZE - 2 = 4094 := by rfl
        omega
    · exact h

lemma drainFold_acc_le (chunks : List (List Nat)) : ∀ (s : DrainSt),
    s.acc.length ≤ OUTPUT_BUFFER_SIZE - 2 →
    (chunks.foldl drainStep s).acc.length ≤ OUTPUT_BUFFER_SIZE - 2 := by
  induction chunks with
  | nil => intro s h; exact h
  | cons c cs ih =>
      intro s h
      exact ih (drainStep s c) (drainStep_acc_le s c h)

lemma drainResidual_acc_le (chunks : List (List Nat)) : ∀ (a : List Nat),
    a.length ≤ OUTPUT_BUFFER_SIZE - 2 →
    (drainResidual a chunks).length ≤ OUTPUT_BUFFER_SIZE - 2 := by
  induction chunks with
  | nil => intro a h; exact h
  | cons c cs ih =>
      intro a h
      unfold drainResidual
      rw [List.foldl_cons]
      show (drainResidual (if a.length + c.length < OUTPUT_BUFFER_SIZE - 1
        then a ++ c else a) cs).length ≤ _
      split
      · next hfit =>
          refine ih _ ?_
          simp only [List.length_append]
          have h2 : OUTPUT_BUFFER_SIZE - 2 = 4094 := by rfl
          have h1 : OUTPUT_BUFFER_SIZE - 1 = 4095 := by rfl
          omega
      · exact ih a h

/-- While the running total stays below 4095, every chunk is appended and no
warning or halt occurs. -/
lemma drainFold_all_fit (chunks : List (List Nat)) : ∀ (s : DrainSt),
    s.halted = false →
    s.acc.length + (chunks.map List.length).sum ≤ OUTPUT_BUFFER_SIZE - 2 →
    chunks.foldl drainStep s = ⟨s.acc ++ chunks.flatten, s.warned, false⟩ := by
  induction chunks with
  | nil =>
      intro s hh _
      rcases s with ⟨acc, w, ht⟩
      simp at hh
      subst hh
      simp
  | cons c cs ih =>
      intro s hh hsum
      rw [List.foldl_cons]
      have hfit : s.acc.length + c.length < OUTPUT_BUFFER_SIZE - 1 := by
        simp only [List.map_cons, List.sum_cons] at hsum
        have h2 : OUTPUT_BUFFER_SIZE - 2 = 4094 := by rfl
        have h1 : OUTPUT_BUFFER_SIZE - 1 = 4095 := by rfl
        omega
      have hstep : drainStep s c = { s with acc := s.acc ++ c } := by
        unfold drainStep
        rw [if_neg (by rw [hh]; exact Bool.false_ne_true), if_pos hfit]
      rw [hstep]
      have := ih { s with acc := s.acc ++ c } (by exact hh)
        (by
          simp only [List.length_append, List.map_cons, List.sum_cons] at hsum ⊢
          omega)
      rw [this]
      simp

/-- A halted drain state absorbs every further chunk. -/
lemma drainFold_halted (chunks : List (List Nat)) : ∀ (s : DrainSt),
    s.halted = true → chunks.foldl drainStep s = s := by
  induction chunks with
  | nil => intro s _; rfl
  | cons c cs ih =>
      intro s hh
      rw [List.foldl_cons]
      have hstep : drainStep s c = s := by
        unfold drainStep
        rw [if_pos hh]
      rw [hstep]
      exact ih s hh

/-- If the total monitored output reaches 4095 bytes, the warning fires. -/
lemma drainFold_overflow_warns (chunks : List (List Nat)) : ∀ (s : DrainSt),
    s.halted = false → s.acc.length ≤ OUTPUT_BUFFER_SIZE - 2 →
    OUTPUT_BUFFER_SIZE - 1 ≤ s.acc.length + (chunks.map List.length).sum →
    (chunks.foldl drainStep s).warned = true := by
  induction chunks with
  | nil =>
      intro s _ hle hsum
      simp only [List.map_nil, List.sum_nil, Nat.add_zero] at hsum
      have h2 : OUTPUT_BUFFER_SIZE - 2 = 4094 := by rfl
      have h1 : OUTPUT_BUFFER_SIZE - 1 = 4095 := by rfl
      omega
  | cons c cs ih =>
      intro s hh hle hsum
      rw [List.foldl_cons]
      by_cases hfit : s.acc.length + c.length < OUTPUT_BUFFER_SIZE - 1
      · have hstep : drainStep s c = { s with acc := s.acc ++ c } := by
          unfold drainStep
          rw [if_neg (by rw [hh]; exact Bool.false_ne_true), if_pos hfit]
        rw [hstep]
        refine ih _ (by exact hh) ?_ ?_
        · simp only [List.length_append]
          have h2 : OUTPUT_BUFFER_SIZE - 2 = 4094 := by rfl
          have h1 : OUTPUT_BUFFER_SIZE - 1 = 4095 := by rfl
          omega
        · simp only [List.length_append, List.map_cons, List.sum_cons] at hsum ⊢
          omega
      · have hstep : drainStep s c = { s with warned := true, halted := true } := by
          unfold drainStep
          rw [if_neg (by rw [hh]; exact Bool.false_ne_true), if_neg hfit]
        rw [hstep, drainFold_halted cs _ (by rfl)]

lemma OB_eq : OUTPUT_BUFFER_SIZE = 4096 := by rfl

lemma sum_lengths_eq_flatten (l : List (List Nat)) :
    (l.map List.length).sum = l.flatten.length :=
  (List.length_flatten l).symm

/-- When everything fits, the residual pass appends all chunks. -/
lemma drainResidual_all_fit : ∀ (r : List (List Nat)) (a : List Nat),
    a.length + (r.map List.length).sum ≤ OUTPUT_BUFFER_SIZE - 2 →
    drainResidual a r = a ++ r.flatten := by
  intro r
  induction r with
  | nil => intro a _; simp [drainResidual]
  | cons c cs ih =>
      intro a h
      have hOB := OB_eq
      have hfit : a.length + c.length < OUTPUT_BUFFER_SIZE - 1 := by
        simp only [List.map_cons, List.sum_cons] at h
        omega
      rw [show drainResidual a (c :: cs)
          = drainResidual (if a.length + c.length < OUTPUT_BUFFER_SIZE - 1
              then a ++ c else a) cs from rfl]
      rw [if_pos hfit]
      rw [ih (a ++ c) (by
        simp only [List.length_append, List.map_cons, List.sum_cons] at h ⊢
        omega)]
      simp

lemma drainStep_fits (acc c : List Nat) (w : Bool)
    (h : acc.length + c.length < OUTPUT_BUFFER_SIZE - 1) :
    drainStep ⟨acc, w, false⟩ c = ⟨acc ++ c, w, false⟩ := by
  unfold drainStep
  rw [if_neg (by simp), if_pos h]

lemma drainStep_overflow (acc c : List Nat) (w : Bool)
    (h : ¬ acc.length + c.length < OUTPUT_BUFFER_SIZE - 1) :
    drainStep ⟨acc, w, false⟩ c = ⟨acc, true, true⟩ := by
  unfold drainStep
  rw [if_neg (by simp), if_neg h]

/-- C7 counterexample: the claim says output is truncated at 4096 bytes with
a warning only when it EXCEEDS 4096.  With a 4095-byte output delivered as
four 1023-byte chunks and one 3-byte chunk (all legal `read` results), the
warning fires although 4095 ≤ 4096, and only 4092 bytes are captured — the
whole non-fitting chunk is dropped, so the cut is not at byte 4096. -/
theorem output_truncated_early_counterexample :
    (drainMonitor [List.replicate 1023 0, List.replicate 1023 0,
      List.replicate 1023 0, List.replicate 1023 0,
      List.replicate 3 0]).warned = true ∧
    ([List.replicate 1023 (0 : Nat), List.replicate 1023 0,
      List.replicate 1023 0, List.replicate 1023 0,
      List.replicate 3 0].flatten).length = 4095 ∧
    4095 ≤ OUTPUT_BUFFER_SIZE ∧
    (drainMonitor [List.replicate 1023 0, List.replicate 1023 0,
      List.replicate 1023 0, List.replicate 1023 0,
      List.replicate 3 0]).acc.length = 4092 := by
  have hOB := OB_eq
  have hm : drainMonitor [List.replicate 1023 (0 : Nat), List.replicate 1023 0,
      List.replicate 1023 0, List.replicate 1023 0, List.replicate 3 0]
      = ⟨((List.replicate 1023 0 ++ List.replicate 1023 0)
          ++ List.replicate 1023 0) ++ List.replicate 1023 0, true, true⟩ := by
    unfold drainMonitor
    simp only [List.foldl_cons, List.foldl_nil]
    rw [show (⟨[], false, false⟩ : DrainSt)
        = ⟨([] : List Nat), false, false⟩ from rfl]
    rw [drainStep_fits ([] : List Nat) (List.replicate 1023 0) false (by
      simp only [List.length_nil, List.length_replicate]; omega)]
    rw [List.nil_append]
    rw [drainStep_fits (List.replicate 1023 0) (List.replicate 1023 0) false (by
      simp only [List.length_replicate]; omega)]
    rw [drainStep_fits (List.replicate 1023 0 ++ List.replicate 1023 0)
      (List.replicate 1023 0) false (by
      simp only [List.length_append, List.length_replicate]; omega)]
    rw [drainStep_fits ((List.replicate 1023 0 ++ List.replicate 1023 0)
        ++ List.replicate 1023 0)
      (List.replicate 1023 0) false (by
      simp only [List.length_append, List.length_replicate]; omega)]
    rw [drainStep_overflow (((List.replicate 1023 0 ++ List.replicate 1023 0)
        ++ List.replicate 1023 0) ++ List.replicate 1023 0)
      (List.replicate 3 0) false (by
      simp only [List.length_append, List.length_replicate]; omega)]
  refine ⟨by rw [hm], ?_, by omega, ?_⟩
  · simp only [List.flatten_cons, List.flatten_nil, List.length_append,
      List.length_replicate, List.length_nil]
  · rw [hm]
    simp only [List.length_append, List.length_replicate]

/-- C7 amended.  For a single command, the captured output is the
concatenation of the read chunks that fit: the accumulation buffer never
holds more than 4094 bytes (append only while the total stays below
`OUTPUT_BUFFER_SIZE - 1 = 4095`); when the combined output is at most 4094
bytes it is captured in full with no warning; the truncation warning fires
exactly when the monitored output reaches 4095 bytes — i.e. already at
4095-4096 total bytes, not only above 4096 — and it halts all further
monitor reads (a residual post-exit pass may still append small fitting
chunks). -/
theorem output_capture_bounded (m r : List (List Nat)) :
    (drainMonitor m).acc.length ≤ OUTPUT_BUFFER_SIZE - 2 ∧
    (capturedOutput m r).length ≤ OUTPUT_BUFFER_SIZE - 2 ∧
    ((m ++ r).flatten.length ≤ OUTPUT_BUFFER_SIZE - 2 →
      capturedOutput m r = (m ++ r).flatten ∧
      (drainMonitor m).warned = false) ∧
    ((drainMonitor m).warned = true ↔
      OUTPUT_BUFFER_SIZE - 1 ≤ m.flatten.length) ∧
    (∀ extra, (drainMonitor m).halted = true →
      drainMonitor (m ++ extra) = drainMonitor m) := by
  have hOB := OB_eq
  refine ⟨?_, ?_, ?_, ⟨?_, ?_⟩, ?_⟩
  · exact drainFold_acc_le m _ (by simp)
  · exact drainResidual_acc_le r _ (drainFold_acc_le m _ (by simp))
  · intro htot
    rw [List.flatten_append, List.length_append] at htot
    have hm : drainMonitor m = ⟨m.flatten, false, false⟩ := by
      unfold drainMonitor
      rw [drainFold_all_fit m _ rfl (by
        show ([] : List Nat).length + (m.map List.length).sum ≤ _
        rw [List.length_nil, sum_lengths_eq_flatten m]
        omega)]
      simp
    constructor
    · unfold capturedOutput
      rw [hm]
      show drainResidual m.flatten r = _
      rw [drainResidual_all_fit r m.flatten (by
        rw [sum_lengths_eq_flatten r]
        omega)]
      rw [List.flatten_append]
    · rw [hm]
  · intro hw
    by_contra hlt
    have hm : drainMonitor m = ⟨m.flatten, false, false⟩ := by
      unfold drainMonitor
      rw [drainFold_all_fit m _ rfl (by
        show ([] : List Nat).length + (m.map List.length).sum ≤ _
        rw [List.length_nil, sum_lengths_eq_flatten m]
        omega)]
      simp
    rw [hm] at hw
    exact absurd hw (by simp)
  · intro hge
    unfold drainMonitor
    refine drainFold_overflow_warns m _ rfl (by simp) ?_
    show OUTPUT_BUFFER_SIZE - 1 ≤ ([] : List Nat).length + (m.map List.length).sum
    rw [List.length_nil, sum_lengths_eq_flatten m]
    omega
  · intro extra hh
    unfold drainMonitor
    rw [List.foldl_append]
    exact drainFold_halted extra _ hh

/-- C7 witness: a two-chunk output of 3 bytes is captured in full with no
warning. -/
theorem output_capture_bounded_witness :
    capturedOutput [[1, 2]] [[3]] = ([[1, 2]] ++ [[3]]).flatten ∧
    (drainMonitor [[1, 2]]).warned = false :=
  (output_capture_bounded [[1, 2]] [[3]]).2.2.1 (by decide)

/-! ## MultiWatch temp files

`MultiWatchProcess` (lines 88-95), creation in `handle_multiwatch_command`
(lines 2347-2371), the process-finished branch of
`monitor_multiwatch_processes` (lines 2104-2116), and `cleanup_multiwatch`
(lines 1853-1922). -/

structure MWProc where
  pid : Int
  fd : Int
  command : String
  tempFile : String
  active : Bool
deriving DecidableEq, Repr

/-- The `snprintf` format of line 2352:
`.temp.multiwatch.<pid>.<index>.<timestamp>.txt`. -/
def tempName (pid idx ts : Nat) : String :=
  ".temp.multiwatch." ++ toString pid ++ "." ++ toString idx ++ "."
    ++ toString ts ++ ".txt"

/-- Temp-file creation (lines 2350-2363): one file per sub-command, named by
`tempName`, opened `O_WRONLY | O_CREAT | O_TRUNC` with mode 0600 octal
(= 384 decimal). -/
def multiwatchTempFiles (cmds : List String) (pid ts : Nat) :
    List (String × Nat) :=
  (List.range cmds.length).map (fun i => (tempName pid i ts, 384))

/-- The process-finished branch of the monitor loop (lines 2104-2116): the
entry's `active` flag is cleared and its fd closed; the temp file is NOT
unlinked there. -/
def monitorMarkFinished (p : MWProc) : MWProc :=
  { p with active := false, fd := -1 }

/-- `cleanup_multiwatch` (lines 1858-1917): iterate over the table; for each
entry STILL MARKED ACTIVE, send `SIGTERM` to its process group, send
`SIGKILL` to the group if it survives the grace period (`needsKill`), close
the fd, `unlink` the temp file and clear the flag; entries whose `active`
flag is already 0 are skipped entirely.  Returns the updated table, the
list of unlinked files, and the signal trace `(target, signal)`, negative
targets denoting process groups. -/
def cleanupMultiwatch (needsKill : Int → Bool) :
    List MWProc → List MWProc × List String × List (Int × Nat)
  | [] => ([], [], [])
  | p :: ps =>
    let r := cleanupMultiwatch needsKill ps
    if p.active then
      ({ p with active := false, fd := -1 } :: r.1,
       p.tempFile :: r.2.1,
       ((-p.pid, SIGTERM) ::
         (if needsKill p.pid then [(-p.pid, SIGKILL)] else [])) ++ r.2.2)
    else (p :: r.1, r.2.1, r.2.2)

lemma range_getElem? (n i : Nat) (h : i < n) : (List.range n)[i]? = some i := by
  rw [List.getElem?_eq_getElem (by simpa using h)]
  simp

/-- A concrete watched process for the C5 counterexample. -/
def mwP : MWProc := ⟨42, 5, "echo A", tempName 7 0 100, true⟩

/-- C5 counterexample: the claim says every temp file is removed at
supervisor cleanup regardless of whether the process had already finished
(active flag cleared).  If `mwP`'s process finishes during monitoring, the
monitor clears its flag without unlinking, and cleanup then skips the entry:
no file is removed — whereas the same entry still active would have its
file removed. -/
theorem multiwatch_cleanup_skips_finished_counterexample :
    (cleanupMultiwatch (fun _ => false) [monitorMarkFinished mwP]).2.1
      = [] ∧
    (monitorMarkFinished mwP).tempFile = tempName 7 0 100 ∧
    (cleanupMultiwatch (fun _ => false) [mwP]).2.1 = [tempName 7 0 100] := by
  refine ⟨rfl, rfl, rfl⟩

/-- C5 amended.  Every multiWatch invocation creates, per sub-command, a
temp file `.temp.multiwatch.<pid>.<index>.<timestamp>.txt` in the current
working directory with mode 0600; at supervisor cleanup exactly the temp
files of entries whose `active` flag is still set are removed — an entry
whose process was reaped during monitoring (flag cleared there, with no
unlink) is skipped and its temp file left behind. -/
theorem multiwatch_tempfiles_cleanup (needsKill : Int → Bool)
    (ps : List MWProc) (cmds : List String) (pid ts i : Nat)
    (hi : i < cmds.length) :
    (cleanupMultiwatch needsKill ps).2.1
      = (ps.filter (fun p => p.active)).map (fun p => p.tempFile) ∧
    (multiwatchTempFiles cmds pid ts)[i]? = some (tempName pid i ts, 384) ∧
    (monitorMarkFinished ⟨Int.ofNat pid, 3, "c", tempName pid i ts, true⟩).active
      = false := by
  refine ⟨?_, ?_, rfl⟩
  · induction ps with
    | nil => rfl
    | cons p ps ih =>
        cases hp : p.active with
        | true => simp [cleanupMultiwatch, hp, ih]
        | false => simp [cleanupMultiwatch, hp, ih]
  · unfold multiwatchTempFiles
    rw [List.getElem?_map, range_getElem? cmds.length i hi]
    rfl

/-- C5 witness: cleanup on a two-entry table — one still active, one already
reaped — removes exactly the active entry's file. -/
theorem multiwatch_tempfiles_cleanup_witness :
    (cleanupMultiwatch (fun _ => false) [mwP, monitorMarkFinished mwP]).2.1
      = ([mwP, monitorMarkFinished mwP].filter (fun p => p.active)).map
          (fun p => p.tempFile) ∧
    (multiwatchTempFiles ["echo A", "echo B"] 7 100)[0]?
      = some (tempName 7 0 100, 384) :=
  ⟨(multiwatch_tempfiles_cleanup (fun _ => false)
      [mwP, monitorMarkFinished mwP] ["echo A", "echo B"] 7 100 0
      (by norm_num)).1,
   (multiwatch_tempfiles_cleanup (fun _ => false)
      [mwP, monitorMarkFinished mwP] ["echo A", "echo B"] 7 100 0
      (by norm_num)).2.1⟩

end Myterm
